import Mathlib

/-!
Verification of the pytrader analytics core: the indicator computation
engine (`src/services/analytics/src/indicators.py`) and the signal
generation engine (`src/services/analytics/src/signals.py`), shallowly
embedded over exact rationals (standing for Python floats) with `Option`
for pandas NaN / absent values.

The repository calls the third-party `ta` library for the EMA, RSI and
Bollinger Band arithmetic; that library is not part of the repository's
sources, so those numeric kernels are modelled from the specification
(each such definition carries a doc comment saying so).  Everything else
(dataframe construction, dispatch, the crossover loop, the strategy
registry) is translated directly from the Python sources.
-/

/-- One OHLCV candlestick, from `models.py` (`OHLCVCandle`).  Prices and
volume are Python floats, embedded as rationals; `timestamp` is an integer
epoch in milliseconds.  The `open` field is renamed `open_` because `open`
is a Lean keyword. -/
structure OHLCVCandle where
  symbol : String
  interval : String
  timestamp : Int
  open_ : ℚ
  high : ℚ
  low : ℚ
  close : ℚ
  volume : ℚ
deriving DecidableEq, Repr

/-- Insert a candle into a list sorted ascending by timestamp, keeping it
sorted (stable: an equal timestamp goes after existing entries). -/
def insertByTimestamp (c : OHLCVCandle) : List OHLCVCandle → List OHLCVCandle
  | [] => [c]
  | d :: ds => if c.timestamp < d.timestamp then c :: d :: ds else d :: insertByTimestamp c ds

/-- Sort candles ascending by timestamp (insertion sort), embedding the
`df.sort_values("timestamp")` step of `candles_to_dataframe`. -/
def sortByTimestamp : List OHLCVCandle → List OHLCVCandle
  | [] => []
  | c :: cs => insertByTimestamp c (sortByTimestamp cs)

/-- Embedding of `candles_to_dataframe` from `indicators.py`: the dataframe is the list
of candles sorted ascending by timestamp (an empty input gives an empty
frame). -/
def candles_to_dataframe (candles : List OHLCVCandle) : List OHLCVCandle :=
  sortByTimestamp candles

/-- The `close` column of a dataframe. -/
def closes (df : List OHLCVCandle) : List ℚ := df.map (fun c => c.close)

/-- The `volume` column of a dataframe. -/
def volumes (df : List OHLCVCandle) : List ℚ := df.map (fun c => c.volume)

/-! ## EMA -/

/-- EMA smoothing factor α = 2/(period+1). -/
def emaAlpha (period : ℕ) : ℚ := 2 / (period + 1)

/-- One EMA smoothing step: `ema[i] = close[i]·α + ema[i-1]·(1-α)`. -/
def emaStep (a acc c : ℚ) : ℚ := c * a + acc * (1 - a)

/-- EMA seed: simple mean of the first `period` closes. -/
def emaSeed (cl : List ℚ) (period : ℕ) : ℚ := (cl.take period).sum / period

/-- The EMA value at index `i ≥ period - 1`: the seed smoothed through
closes `period, …, i`. -/
def emaVal (cl : List ℚ) (period i : ℕ) : ℚ :=
  ((cl.drop period).take (i + 1 - period)).foldl (emaStep (emaAlpha period)) (emaSeed cl period)

/-- Modelled from the spec: the EMA series produced by the `ta` library's
`EMAIndicator.ema_indicator` (called by `calculate_ema` in
`indicators.py`), which is not part of this repository's sources.  Per the
spec: absent for indices `i < period - 1`; at `i = period - 1` the seed is
the simple mean of the first `period` closes; for `i ≥ period`,
`ema[i] = close[i]·α + ema[i-1]·(1-α)` with `α = 2/(period+1)`. -/
def emaAt (cl : List ℚ) (period i : ℕ) : Option ℚ :=
  if i + 1 < period ∨ cl.length ≤ i then none else some (emaVal cl period i)

/-- Embedding of `calculate_ema` from `indicators.py`: the EMA series over the frame's
close column, one (possibly absent) value per row. -/
def calculate_ema (df : List OHLCVCandle) (period : ℕ) : List (Option ℚ) :=
  (List.range df.length).map (fun i => emaAt (closes df) period i)

/-! ### EMA basic lemmas -/

theorem emaVal_seed (cl : List ℚ) (period : ℕ) (hp : 1 ≤ period) :
    emaVal cl period (period - 1) = emaSeed cl period := by
  unfold emaVal
  have h : period - 1 + 1 - period = 0 := by omega
  rw [h]
  simp

theorem emaVal_succ (cl : List ℚ) (period i : ℕ) (hp0 : 1 ≤ period) (hp : period ≤ i)
    (hi : i < cl.length) :
    emaVal cl period i =
      emaStep (emaAlpha period) (emaVal cl period (i - 1)) (cl.getD i 0) := by
  unfold emaVal
  have h1 : i + 1 - period = (i - period) + 1 := by omega
  have h2 : i - 1 + 1 - period = i - period := by omega
  rw [h1, h2, List.take_succ]
  have h3 : (cl.drop period)[i - period]? = some (cl.getD i 0) := by
    rw [List.getElem?_drop]
    have h4 : period + (i - period) = i := by omega
    rw [h4]
    rw [List.getElem?_eq_getElem hi]
    simp [List.getD_eq_getElem?_getD, List.getElem?_eq_getElem hi]
  rw [h3]
  simp [List.foldl_append]

theorem emaAt_eq_none_iff (cl : List ℚ) (period i : ℕ) :
    emaAt cl period i = none ↔ (i + 1 < period ∨ cl.length ≤ i) := by
  unfold emaAt
  by_cases h : i + 1 < period ∨ cl.length ≤ i <;> simp [h]

theorem length_insertByTimestamp (c : OHLCVCandle) (l : List OHLCVCandle) :
    (insertByTimestamp c l).length = l.length + 1 := by
  induction l with
  | nil => rfl
  | cons d ds ih =>
    unfold insertByTimestamp
    by_cases h : c.timestamp < d.timestamp <;> simp [h, ih]

theorem length_sortByTimestamp (l : List OHLCVCandle) :
    (sortByTimestamp l).length = l.length := by
  induction l with
  | nil => rfl
  | cons c cs ih => simp [sortByTimestamp, length_insertByTimestamp, ih]

theorem length_candles_to_dataframe (l : List OHLCVCandle) :
    (candles_to_dataframe l).length = l.length :=
  length_sortByTimestamp l

theorem length_closes (df : List OHLCVCandle) : (closes df).length = df.length := by
  simp [closes]

theorem length_calculate_ema (df : List OHLCVCandle) (period : ℕ) :
    (calculate_ema df period).length = df.length := by
  simp [calculate_ema]

theorem calculate_ema_get? (df : List OHLCVCandle) (period i : ℕ) (h : i < df.length) :
    (calculate_ema df period)[i]? = some (emaAt (closes df) period i) := by
  unfold calculate_ema
  rw [List.getElem?_map, List.getElem?_range h]
  rfl

/-! ## RSI -/

/-- Positive parts of the per-step close deltas: entry `j` is
`max (close[j+1] - close[j]) 0`. -/
def gains (cl : List ℚ) : List ℚ :=
  (cl.tail.zip cl).map (fun p => max (p.1 - p.2) 0)

/-- Absolute negative parts of the per-step close deltas: entry `j` is
`max (close[j] - close[j+1]) 0`. -/
def losses (cl : List ℚ) : List ℚ :=
  (cl.tail.zip cl).map (fun p => max (p.2 - p.1) 0)

/-- Wilder's smoothed average of the first `i` entries of `xs` (meaningful
for `period ≤ i`): seeded with the simple mean of the first `period`
entries, then `avg = (avg·(period-1) + x)/period` for each further entry. -/
def wilderAvg (xs : List ℚ) (period i : ℕ) : ℚ :=
  ((xs.drop period).take (i - period)).foldl
    (fun acc g => (acc * (period - 1) + g) / period)
    ((xs.take period).sum / period)

/-- Modelled from the spec: the RSI series produced by the `ta` library's
`RSIIndicator.rsi` (called by `calculate_rsi` in `indicators.py`), which is
not part of this repository's sources.  Per the spec: running (Wilder
smoothed) averages of gains and losses over a trailing window of `period`
steps; `RS = avg_gain/avg_loss`, with RSI = 100 when `avg_loss = 0`, else
`RSI = 100 - 100/(1+RS)`; absent for indices with fewer than `period`
preceding deltas. -/
def rsiAt (cl : List ℚ) (period i : ℕ) : Option ℚ :=
  if i < period ∨ cl.length ≤ i then none
  else
    let g := wilderAvg (gains cl) period i
    let l := wilderAvg (losses cl) period i
    some (if l = 0 then 100 else 100 - 100 / (1 + g / l))

/-- Embedding of `calculate_rsi` from `indicators.py`: the RSI series over the frame's
close column, one (possibly absent) value per row. -/
def calculate_rsi (df : List OHLCVCandle) (period : ℕ) : List (Option ℚ) :=
  (List.range df.length).map (fun i => rsiAt (closes df) period i)

/-! ## Bollinger Bands -/

/-- The trailing window of `period` values of `xs` ending at index `i`,
absent while fewer than `period` values have accumulated. -/
def rollingWindow (xs : List ℚ) (period i : ℕ) : Option (List ℚ) :=
  if i + 1 < period ∨ xs.length ≤ i then none
  else some ((xs.take (i + 1)).drop (i + 1 - period))

/-- Mean of a window of `period` values. -/
def windowMean (w : List ℚ) (period : ℕ) : ℚ := w.sum / period

/-- Population variance of a window of `period` values. -/
def windowVar (w : List ℚ) (period : ℕ) : ℚ :=
  (w.map (fun x => (x - windowMean w period) ^ 2)).sum / period

/-- Rolling mean and population variance of the closes over a trailing
window of 20, as used by the Bollinger computation. -/
def bbMeanVar (cl : List ℚ) (i : ℕ) : Option (ℚ × ℚ) :=
  (rollingWindow cl 20 i).map (fun w => (windowMean w 20, windowVar w 20))

/-- Modelled from the spec: the upper Bollinger band produced by the `ta`
library's `BollingerBands.bollinger_hband` (called by
`calculate_bollinger_bands` in `indicators.py`), which is not part of this
repository's sources.  Per the spec: `upper = mean + 2·std` over a trailing
window of 20 closes, absent before 20 points accumulate. -/
noncomputable def bbUpperAt (cl : List ℚ) (i : ℕ) : Option ℝ :=
  (bbMeanVar cl i).map (fun p => (p.1 : ℝ) + 2 * Real.sqrt (p.2 : ℝ))

/-- Modelled from the spec: the middle Bollinger band
(`BollingerBands.bollinger_mavg`): the rolling mean over a trailing window
of 20 closes, absent before 20 points accumulate. -/
noncomputable def bbMiddleAt (cl : List ℚ) (i : ℕ) : Option ℝ :=
  (bbMeanVar cl i).map (fun p => (p.1 : ℝ))

/-- Modelled from the spec: the lower Bollinger band
(`BollingerBands.bollinger_lband`): `lower = mean - 2·std` over a trailing
window of 20 closes, absent before 20 points accumulate. -/
noncomputable def bbLowerAt (cl : List ℚ) (i : ℕ) : Option ℝ :=
  (bbMeanVar cl i).map (fun p => (p.1 : ℝ) - 2 * Real.sqrt (p.2 : ℝ))

/-- Embedding of `calculate_bollinger_bands` from `indicators.py`: the three band series
(upper, middle, lower) over the frame's close column. -/
noncomputable def calculate_bollinger_bands (df : List OHLCVCandle) :
    List (Option ℝ) × List (Option ℝ) × List (Option ℝ) :=
  ((List.range df.length).map (fun i => bbUpperAt (closes df) i),
   (List.range df.length).map (fun i => bbMiddleAt (closes df) i),
   (List.range df.length).map (fun i => bbLowerAt (closes df) i))

/-! ## Volume SMA -/

/-- Modelled from the spec: `df["volume"].rolling(window=20).mean()` used by
`calculate_volume_sma` in `indicators.py` (pandas is not part of this
repository's sources).  Per the spec: rolling mean of volume over a
trailing window of 20, absent during warm-up. -/
def volumeSmaAt (vols : List ℚ) (i : ℕ) : Option ℚ :=
  (rollingWindow vols 20 i).map (fun w => windowMean w 20)

/-- Embedding of `calculate_volume_sma` from `indicators.py`: the rolling volume mean
series over the frame's volume column. -/
def calculate_volume_sma (df : List OHLCVCandle) : List (Option ℚ) :=
  (List.range df.length).map (fun i => volumeSmaAt (volumes df) i)

/-! ## calculate_indicators -/

/-- The supported indicator names, the `IndicatorName` literal type of
`models.py`. -/
def IndicatorName : List String :=
  ["ema_20", "ema_50", "ema_200", "rsi_14", "macd", "bollinger_bands", "volume_sma"]

/-- One per-candle result record of `calculate_indicators`: the Python dict
`{"timestamp": ..., field: value, ...}`, with the indicator fields kept in
insertion order.  Band values live in ℝ (they involve a square root), so
all stored values are embedded in ℝ. -/
structure IndicatorRecord where
  timestamp : Int
  values : List (String × Option ℝ)

/-- A rational indicator series viewed as a real-valued one. -/
def toRealSeries (s : List (Option ℚ)) : List (Option ℝ) :=
  s.map (fun v => v.map (fun q => (q : ℝ)))

/-- The `for i, val in enumerate(values): results[i][name] = val` loop of
`calculate_indicators`: append field `name` with the series value to each
record. -/
def addSeries (name : String) (vals : List (Option ℝ)) (recs : List IndicatorRecord) :
    List IndicatorRecord :=
  List.zipWith (fun r v => { r with values := r.values ++ [(name, v)] }) recs vals

/-- One iteration of the indicator dispatch loop in `calculate_indicators`
(`indicators.py` lines 78–109): the chain of string comparisons on the
requested name; an unmatched name (such as `"macd"`) falls through and
changes nothing. -/
noncomputable def applyIndicator (df : List OHLCVCandle) (recs : List IndicatorRecord)
    (name : String) : List IndicatorRecord :=
  if name = "ema_20" then addSeries "ema_20" (toRealSeries (calculate_ema df 20)) recs
  else if name = "ema_50" then addSeries "ema_50" (toRealSeries (calculate_ema df 50)) recs
  else if name = "ema_200" then addSeries "ema_200" (toRealSeries (calculate_ema df 200)) recs
  else if name = "rsi_14" then addSeries "rsi_14" (toRealSeries (calculate_rsi df 14)) recs
  else if name = "bollinger_bands" then
    addSeries "bb_lower" (calculate_bollinger_bands df).2.2
      (addSeries "bb_middle" (calculate_bollinger_bands df).2.1
        (addSeries "bb_upper" (calculate_bollinger_bands df).1 recs))
  else if name = "volume_sma" then
    addSeries "volume_sma" (toRealSeries (calculate_volume_sma df)) recs
  else recs

/-- The initial result structure of `calculate_indicators`: one record per
frame row carrying only the timestamp. -/
def initRecords (df : List OHLCVCandle) : List IndicatorRecord :=
  df.map (fun c => ⟨c.timestamp, []⟩)

/-- Embedding of `calculate_indicators` from `indicators.py`: empty input gives an empty
result; otherwise one record per row of the sorted frame, with one field
appended per requested indicator (three for `bollinger_bands`). -/
noncomputable def calculate_indicators (candles : List OHLCVCandle) (names : List String) :
    List IndicatorRecord :=
  if candles.isEmpty then []
  else
    let df := candles_to_dataframe candles
    names.foldl (applyIndicator df) (initRecords df)

/-! ## Signals -/

/-- Embedding of `SignalAction` from `models.py`. -/
inductive SignalAction where
  | buy
  | sell
  | hold
deriving DecidableEq, Repr

/-- Embedding of `Signal` from `models.py`: an emitted trading signal. -/
structure Signal where
  symbol : String
  timestamp : Int
  action : SignalAction
  confidence : ℚ
  price : ℚ
  strategy_id : String
  metadata : List (String × ℚ)
deriving DecidableEq, Repr

/-- The column `ema_diff = ema_20 - ema_50` at one row; NaN (absence) propagates. -/
def diffAt (cl : List ℚ) (i : ℕ) : Option ℚ :=
  match emaAt cl 20 i, emaAt cl 50 i with
  | some a, some b => some (a - b)
  | _, _ => none

/-- Pandas comparison `x ≤ b` where `x` may be NaN: NaN compares false. -/
def npLe (x : Option ℚ) (b : ℚ) : Bool :=
  match x with
  | some q => decide (q ≤ b)
  | none => false

/-- Pandas comparison `x ≥ b` where `x` may be NaN: NaN compares false. -/
def npGe (x : Option ℚ) (b : ℚ) : Bool :=
  match x with
  | some q => decide (b ≤ q)
  | none => false

/-- The body of the signal loop in `generate_ema_crossover_rsi_signals`
(`signals.py` lines 41–91) at row `i` of the sorted frame: skip when any of
ema_20, ema_50, rsi_14 is NaN there; classify the sign transition of
`ema_diff` against `ema_diff_prev` (a NaN previous diff fails both
comparisons); apply the RSI filter; emit a buy or sell `Signal` with the
code's confidence formula, or nothing for a hold. -/
def signalAt (df : List OHLCVCandle) (symbol strategy_id : String) (i : ℕ) : Option Signal :=
  match df[i]? with
  | none => none
  | some row =>
    match emaAt (closes df) 20 i, emaAt (closes df) 50 i, rsiAt (closes df) 14 i with
    | some e20, some e50, some r =>
      let d := e20 - e50
      let dprev := diffAt (closes df) (i - 1)
      if npLe dprev 0 && decide (0 < d) then
        if r < 70 then
          some ⟨symbol, row.timestamp, .buy, min 1 (1/2 + (70 - r) / 100), row.close,
            strategy_id, [("ema_20", e20), ("ema_50", e50), ("rsi_14", r)]⟩
        else none
      else if npGe dprev 0 && decide (d < 0) then
        if 30 < r then
          some ⟨symbol, row.timestamp, .sell, min 1 (1/2 + (r - 30) / 100), row.close,
            strategy_id, [("ema_20", e20), ("ema_50", e50), ("rsi_14", r)]⟩
        else none
      else none
    | _, _, _ => none

/-- Embedding of `generate_ema_crossover_rsi_signals` from `signals.py`: below 50
candles, no signals; otherwise the loop over rows `1, …, n-1` of the
sorted frame collecting the emitted signals. -/
def generate_ema_crossover_rsi_signals (candles : List OHLCVCandle) (symbol : String)
    (strategy_id : String := "ema_crossover_rsi") : List Signal :=
  if candles.length < 50 then []
  else
    let df := candles_to_dataframe candles
    ((List.range df.length).drop 1).filterMap (signalAt df symbol strategy_id)

/-- A raised Python exception: `ValueError` is the client-input class the
router turns into HTTP 400; anything else becomes HTTP 500. -/
inductive PyError where
  | valueError (msg : String)
  | exception (msg : String)
deriving DecidableEq, Repr

/-- The handler of `routers/signals.py` (lines 40–45): `ValueError`
becomes status 400 (bad request), any other exception status 500. -/
def httpStatusOf : PyError → ℕ
  | .valueError _ => 400
  | .exception _ => 500

/-- Embedding of `generate_signals` from `signals.py`: dispatch on `strategy_id`; the
one recognized id runs the EMA-crossover strategy, any other raises
`ValueError` with a message naming the offending id. -/
def generate_signals (candles : List OHLCVCandle) (symbol strategy_id : String) :
    Except PyError (List Signal) :=
  if strategy_id = "ema_crossover_rsi" then
    .ok (generate_ema_crossover_rsi_signals candles symbol strategy_id)
  else
    .error (.valueError ("Unknown strategy: " ++ strategy_id))

/-! ## Concrete inputs used by witnesses -/

/-- A flat synthetic candle at a given timestamp and price. -/
def mkCandle (ts : Int) (price : ℚ) : OHLCVCandle :=
  ⟨"BTC/USDT", "1m", ts, price, price + 10, price - 10, price, 100⟩

/-- A list of `n` synthetic candles with strictly increasing timestamps and closes. -/
def wCandles (n : ℕ) : List OHLCVCandle :=
  (List.range n).map (fun k => mkCandle (Int.ofNat k) ((k : ℚ)))

/-! ## Generic helper lemmas -/

theorem calculate_rsi_get? (df : List OHLCVCandle) (period i : ℕ) (h : i < df.length) :
    (calculate_rsi df period)[i]? = some (rsiAt (closes df) period i) := by
  unfold calculate_rsi
  rw [List.getElem?_map, List.getElem?_range h]
  rfl

theorem length_calculate_rsi (df : List OHLCVCandle) (period : ℕ) :
    (calculate_rsi df period).length = df.length := by
  simp [calculate_rsi]

theorem length_calculate_volume_sma (df : List OHLCVCandle) :
    (calculate_volume_sma df).length = df.length := by
  simp [calculate_volume_sma]

theorem length_toRealSeries (s : List (Option ℚ)) : (toRealSeries s).length = s.length := by
  simp [toRealSeries]

theorem length_initRecords (df : List OHLCVCandle) : (initRecords df).length = df.length := by
  simp [initRecords]

/-! ## C4: fewer than 50 candles -/

/-- C4: for every candle list of length strictly less than 50 and every
symbol, `generate_signals` with strategy id `ema_crossover_rsi` returns an
empty sequence and raises no error, regardless of the candle values. -/
theorem insufficient_candles_empty (candles : List OHLCVCandle) (symbol : String)
    (h : candles.length < 50) :
    generate_signals candles symbol "ema_crossover_rsi" = .ok [] := by
  simp [generate_signals, generate_ema_crossover_rsi_signals, h]

/-- Witness for C4 at a concrete 30-candle list. -/
theorem insufficient_candles_empty_witness :
    (wCandles 30).length < 50 ∧
      generate_signals (wCandles 30) "BTC/USDT" "ema_crossover_rsi" = .ok [] :=
  ⟨by decide, insufficient_candles_empty (wCandles 30) "BTC/USDT" (by decide)⟩

/-! ## C3: unknown strategy id -/

/-- C3: for every candle list and symbol, `generate_signals` with a
strategy id other than `ema_crossover_rsi` fails with a `ValueError` — the
class the router maps to HTTP 400 (client input), not 500 — whose message
contains the offending id, and no signal list is produced. -/
theorem unknown_strategy_client_error (candles : List OHLCVCandle) (symbol sid : String)
    (h : sid ≠ "ema_crossover_rsi") :
    ∃ msg, generate_signals candles symbol sid = .error (.valueError msg) ∧
      (∃ pre post, msg = pre ++ sid ++ post) ∧
      httpStatusOf (.valueError msg) = 400 ∧
      ∀ sigs, generate_signals candles symbol sid ≠ .ok sigs := by
  refine ⟨"Unknown strategy: " ++ sid, ?_, ⟨"Unknown strategy: ", "", by simp⟩, rfl, ?_⟩
  · simp [generate_signals, h]
  · intro sigs hc
    simp [generate_signals, h] at hc

/-- Witness for C3 at a concrete unrecognized strategy id. -/
theorem unknown_strategy_client_error_witness :
    ("unknown_strategy" : String) ≠ "ema_crossover_rsi" ∧
      ∃ msg, generate_signals [] "BTC/USDT" "unknown_strategy" = .error (.valueError msg) ∧
        (∃ pre post, msg = pre ++ "unknown_strategy" ++ post) ∧
        httpStatusOf (.valueError msg) = 400 ∧
        ∀ sigs, generate_signals [] "BTC/USDT" "unknown_strategy" ≠ .ok sigs :=
  ⟨by decide, unknown_strategy_client_error [] "BTC/USDT" "unknown_strategy" (by decide)⟩

/-! ## C8: empty candle input -/

/-- Counterexample to C8 as stated: on the empty candle list,
`generate_signals` with an unrecognized strategy id raises the
unknown-strategy `ValueError` (the id is checked before the candle count),
so it does not return an empty sequence for every strategy id. -/
theorem empty_input_unknown_strategy_counterexample :
    generate_signals [] "BTC/USDT" "macd_strategy" =
        .error (.valueError "Unknown strategy: macd_strategy") ∧
      ∀ sigs, generate_signals [] "BTC/USDT" "macd_strategy" ≠ .ok sigs := by
  have h1 : generate_signals [] "BTC/USDT" "macd_strategy" =
      .error (.valueError "Unknown strategy: macd_strategy") := by
    simp [generate_signals]
  refine ⟨h1, fun sigs hc => ?_⟩
  rw [h1] at hc
  exact Except.noConfusion hc

/-- C8 amended: on the empty candle list, `calculate_indicators` returns
an empty frame for every indicator-name list and raises no error, and
`generate_signals` returns an empty sequence for every symbol under the
recognized strategy id `ema_crossover_rsi`; for any strategy id the result
is either the empty signal list or the unknown-strategy `ValueError`
(raised when the id is unrecognized), never any other outcome. -/
theorem empty_input_behavior :
    (∀ names, calculate_indicators [] names = []) ∧
      (∀ symbol, generate_signals [] symbol "ema_crossover_rsi" = .ok []) ∧
      (∀ symbol sid, generate_signals [] symbol sid = .ok [] ∨
        generate_signals [] symbol sid =
          .error (.valueError ("Unknown strategy: " ++ sid))) := by
  refine ⟨fun names => by simp [calculate_indicators], fun symbol => by
    simp [generate_signals, generate_ema_crossover_rsi_signals], fun symbol sid => ?_⟩
  by_cases h : sid = "ema_crossover_rsi"
  · subst h
    exact Or.inl (by simp [generate_signals, generate_ema_crossover_rsi_signals])
  · exact Or.inr (by simp [generate_signals, h])

/-! ## C10: the macd enum member has no dispatch branch -/

theorem applyIndicator_macd (df : List OHLCVCandle) (recs : List IndicatorRecord) :
    applyIndicator df recs "macd" = recs := rfl

/-- C10: `"macd"` is a member of the supported `IndicatorName` enum, yet
`calculate_indicators` with name list `["macd"]` returns one record per
candle containing only the timestamp field — the dispatch has no branch
for it, so no indicator field is added and no error is raised. -/
theorem macd_ignored (candles : List OHLCVCandle) (h : candles ≠ []) :
    "macd" ∈ IndicatorName ∧
      (calculate_indicators candles ["macd"]).length = candles.length ∧
      ∀ r ∈ calculate_indicators candles ["macd"], r.values = [] := by
  have hne : candles.isEmpty = false := by
    cases candles with
    | nil => exact absurd rfl h
    | cons c cs => rfl
  have hcalc : calculate_indicators candles ["macd"] =
      initRecords (candles_to_dataframe candles) := by
    unfold calculate_indicators
    rw [hne]
    simp [List.foldl, applyIndicator_macd]
  refine ⟨by simp [IndicatorName], ?_, ?_⟩
  · rw [hcalc, length_initRecords, length_candles_to_dataframe]
  · intro r hr
    rw [hcalc] at hr
    unfold initRecords at hr
    obtain ⟨c, _, hc⟩ := List.mem_map.mp hr
    rw [← hc]

/-! ## C1: EMA warm-up, seed and recursion -/

/-- The C1 property of the EMA(p) series produced by the engine over a
candle list: absent at every index `i < p-1`; the value at `p-1` is the
simple mean of the first `p` closes; and every value at `i ≥ p` satisfies
`ema[i] = close[i]·α + ema[i-1]·(1-α)` with `α = 2/(p+1)`. -/
def emaClaimHolds (candles : List OHLCVCandle) (p : ℕ) : Prop :=
  (∀ i, i < (calculate_ema (candles_to_dataframe candles) p).length → i + 1 < p →
      (calculate_ema (candles_to_dataframe candles) p)[i]? = some none) ∧
  (p ≤ candles.length →
      (calculate_ema (candles_to_dataframe candles) p)[p - 1]? =
        some (some (((closes (candles_to_dataframe candles)).take p).sum / (p : ℚ)))) ∧
  (∀ i, p ≤ i → i < candles.length →
      ∃ prev cur,
        (calculate_ema (candles_to_dataframe candles) p)[i - 1]? = some (some prev) ∧
        (calculate_ema (candles_to_dataframe candles) p)[i]? = some (some cur) ∧
        cur = (closes (candles_to_dataframe candles)).getD i 0 * (2 / ((p : ℚ) + 1)) +
          prev * (1 - 2 / ((p : ℚ) + 1)))

/-- C1: for every candle list and every period p in 20, 50, 200, the
EMA(p) series of the indicator engine is absent below index p-1, seeded at
p-1 with the simple mean of the first p closes, and follows the recursive
smoothing `ema[i] = close[i]·α + ema[i-1]·(1-α)`, α = 2/(p+1), above. -/
theorem ema_warmup_seed_recursion (candles : List OHLCVCandle) (p : ℕ)
    (hp : p = 20 ∨ p = 50 ∨ p = 200) : emaClaimHolds candles p := by
  have hp1 : 1 ≤ p := by rcases hp with h | h | h <;> omega
  set df := candles_to_dataframe candles with hdf
  have hlen : df.length = candles.length := length_candles_to_dataframe candles
  have hcl : (closes df).length = candles.length := by rw [length_closes, hlen]
  refine ⟨?_, ?_, ?_⟩
  · intro i hi hip
    rw [length_calculate_ema] at hi
    rw [calculate_ema_get? df p i hi]
    have : emaAt (closes df) p i = none := by
      rw [emaAt_eq_none_iff]
      exact Or.inl hip
    rw [this]
  · intro hple
    have hi : p - 1 < df.length := by omega
    rw [calculate_ema_get? df p (p - 1) hi]
    have hg : ¬(p - 1 + 1 < p ∨ (closes df).length ≤ p - 1) := by
      rw [hcl]; omega
    unfold emaAt
    rw [if_neg hg, emaVal_seed (closes df) p hp1]
    rfl
  · intro i hpi hilt
    have hi : i < df.length := by omega
    have hi1 : i - 1 < df.length := by omega
    have hg : ¬(i + 1 < p ∨ (closes df).length ≤ i) := by rw [hcl]; omega
    have hg1 : ¬(i - 1 + 1 < p ∨ (closes df).length ≤ i - 1) := by rw [hcl]; omega
    refine ⟨emaVal (closes df) p (i - 1), emaVal (closes df) p i, ?_, ?_, ?_⟩
    · rw [calculate_ema_get? df p (i - 1) hi1]
      unfold emaAt
      rw [if_neg hg1]
    · rw [calculate_ema_get? df p i hi]
      unfold emaAt
      rw [if_neg hg]
    · rw [emaVal_succ (closes df) p i hp1 hpi (by omega : i < (closes df).length)]
      rfl

/-- Witness for C1 at a concrete list of 21 candles and period 20. -/
theorem ema_warmup_seed_recursion_witness :
    ((20 : ℕ) = 20 ∨ (20 : ℕ) = 50 ∨ (20 : ℕ) = 200) ∧ emaClaimHolds (wCandles 21) 20 :=
  ⟨Or.inl rfl, ema_warmup_seed_recursion (wCandles 21) 20 (Or.inl rfl)⟩

/-! ## C5: frame length and record timestamps -/

theorem length_addSeries (name : String) (vals : List (Option ℝ))
    (recs : List IndicatorRecord) :
    (addSeries name vals recs).length = min recs.length vals.length := by
  simp [addSeries]

theorem addSeries_cons (name : String) (v : Option ℝ) (vs : List (Option ℝ))
    (r : IndicatorRecord) (rs : List IndicatorRecord) :
    addSeries name (v :: vs) (r :: rs) =
      { r with values := r.values ++ [(name, v)] } :: addSeries name vs rs := rfl

theorem addSeries_spec (name : String) :
    ∀ (recs : List IndicatorRecord) (vals : List (Option ℝ)),
      recs.length ≤ vals.length →
      (addSeries name vals recs).length = recs.length ∧
        (addSeries name vals recs).map (fun r => r.timestamp) =
          recs.map (fun r => r.timestamp) := by
  intro recs
  induction recs with
  | nil => exact fun vals _ => ⟨by simp [addSeries], by simp [addSeries]⟩
  | cons r rs ih =>
    intro vals h
    cases vals with
    | nil => simp at h
    | cons v vs =>
      have h2 := ih vs (by simpa using h)
      rw [addSeries_cons]
      exact ⟨by simpa using h2.1, by simpa using h2.2⟩

theorem applyIndicator_preserves (df : List OHLCVCandle) (recs : List IndicatorRecord)
    (name : String) (h : recs.length = df.length) :
    (applyIndicator df recs name).length = df.length ∧
      (applyIndicator df recs name).map (fun r => r.timestamp) =
        recs.map (fun r => r.timestamp) := by
  have hema : ∀ p, recs.length ≤ (toRealSeries (calculate_ema df p)).length := fun p => by
    rw [length_toRealSeries, length_calculate_ema, h]
  have hrsi : ∀ p, recs.length ≤ (toRealSeries (calculate_rsi df p)).length := fun p => by
    rw [length_toRealSeries, length_calculate_rsi, h]
  have hvs : recs.length ≤ (toRealSeries (calculate_volume_sma df)).length := by
    rw [length_toRealSeries, length_calculate_volume_sma, h]
  unfold applyIndicator
  split_ifs
  case _ => exact (addSeries_spec _ recs _ (hema 20)).imp (fun a => a.trans h) id
  case _ => exact (addSeries_spec _ recs _ (hema 50)).imp (fun a => a.trans h) id
  case _ => exact (addSeries_spec _ recs _ (hema 200)).imp (fun a => a.trans h) id
  case _ => exact (addSeries_spec _ recs _ (hrsi 14)).imp (fun a => a.trans h) id
  case _ =>
    have hu : recs.length ≤ ((calculate_bollinger_bands df).1).length := by
      rw [h]; simp [calculate_bollinger_bands]
    have s1 := addSeries_spec "bb_upper" recs (calculate_bollinger_bands df).1 hu
    have hm : (addSeries "bb_upper" (calculate_bollinger_bands df).1 recs).length ≤
        ((calculate_bollinger_bands df).2.1).length := by
      rw [s1.1, h]; simp [calculate_bollinger_bands]
    have s2 := addSeries_spec "bb_middle" _ (calculate_bollinger_bands df).2.1 hm
    have hl : (addSeries "bb_middle" (calculate_bollinger_bands df).2.1
        (addSeries "bb_upper" (calculate_bollinger_bands df).1 recs)).length ≤
        ((calculate_bollinger_bands df).2.2).length := by
      rw [s2.1, s1.1, h]; simp [calculate_bollinger_bands]
    have s3 := addSeries_spec "bb_lower" _ (calculate_bollinger_bands df).2.2 hl
    exact ⟨(s3.1.trans (s2.1.trans s1.1)).trans h, (s3.2.trans s2.2).trans s1.2⟩
  case _ => exact (addSeries_spec _ recs _ hvs).imp (fun a => a.trans h) id
  case _ => exact ⟨h, rfl⟩

theorem foldl_applyIndicator_preserves (df : List OHLCVCandle) (names : List String) :
    ∀ recs : List IndicatorRecord, recs.length = df.length →
      (names.foldl (applyIndicator df) recs).length = df.length ∧
        (names.foldl (applyIndicator df) recs).map (fun r => r.timestamp) =
          recs.map (fun r => r.timestamp) := by
  induction names with
  | nil => exact fun recs h => ⟨h, rfl⟩
  | cons n ns ih =>
    intro recs h
    have h1 := applyIndicator_preserves df recs n h
    have h2 := ih (applyIndicator df recs n) h1.1
    exact ⟨h2.1, h2.2.trans h1.2⟩

/-- Counterexample to C5 as stated: with two candles whose timestamps are
out of order, the first result record carries timestamp 1 while the first
input candle has timestamp 2 — the engine sorts by timestamp, so records
correspond to the sorted series, not to input positions. -/
theorem frame_timestamp_counterexample :
    (calculate_indicators [mkCandle 2 0, mkCandle 1 0] []).map (fun r => r.timestamp) =
        [1, 2] ∧
      ([mkCandle 2 0, mkCandle 1 0].map (fun c => c.timestamp)) = [2, 1] := by
  constructor
  · rfl
  · rfl

/-- C5 amended: for every candle list and indicator-name list, the result
of `calculate_indicators` has exactly one record per input candle (length
equals input length), and record i carries the timestamp of the i-th
candle of the input sorted ascending by timestamp (so for inputs already
in timestamp order, record i carries the timestamp of input candle i). -/
theorem frame_length_and_timestamps (candles : List OHLCVCandle) (names : List String) :
    (calculate_indicators candles names).length = candles.length ∧
      (calculate_indicators candles names).map (fun r => r.timestamp) =
        (candles_to_dataframe candles).map (fun c => c.timestamp) := by
  by_cases hc : candles.isEmpty
  · have : candles = [] := by
      cases candles with
      | nil => rfl
      | cons c cs => exact absurd hc (by simp)
    subst this
    exact ⟨rfl, rfl⟩
  · unfold calculate_indicators
    rw [if_neg hc]
    have h := foldl_applyIndicator_preserves (candles_to_dataframe candles) names
      (initRecords (candles_to_dataframe candles)) (length_initRecords _)
    refine ⟨h.1.trans (length_candles_to_dataframe candles), h.2.trans ?_⟩
    simp [initRecords]

/-! ## C6: RSI bounds -/

theorem gains_nonneg (cl : List ℚ) : ∀ x ∈ gains cl, 0 ≤ x := by
  intro x hx
  obtain ⟨p, _, hp⟩ := List.mem_map.mp hx
  rw [← hp]
  exact le_max_right _ _

theorem losses_nonneg (cl : List ℚ) : ∀ x ∈ losses cl, 0 ≤ x := by
  intro x hx
  obtain ⟨p, _, hp⟩ := List.mem_map.mp hx
  rw [← hp]
  exact le_max_right _ _

theorem wilder_foldl_nonneg (period : ℕ) (hp : 1 ≤ period) :
    ∀ (l : List ℚ) (acc : ℚ), 0 ≤ acc → (∀ x ∈ l, 0 ≤ x) →
      0 ≤ l.foldl (fun acc g => (acc * ((period : ℚ) - 1) + g) / period) acc := by
  intro l
  induction l with
  | nil => exact fun acc ha _ => ha
  | cons x xs ih =>
    intro acc ha hl
    refine ih _ ?_ (fun y hy => hl y (List.mem_cons_of_mem x hy))
    have h1 : (0 : ℚ) ≤ (period : ℚ) - 1 := by
      have : (1 : ℚ) ≤ (period : ℚ) := by exact_mod_cast hp
      linarith
    have h2 : (0 : ℚ) ≤ x := hl x (List.mem_cons_self x xs)
    have h3 : (0 : ℚ) ≤ (period : ℚ) := by positivity
    have h4 : (0 : ℚ) ≤ acc * ((period : ℚ) - 1) + x := by positivity
    positivity

theorem wilderAvg_nonneg (xs : List ℚ) (period i : ℕ) (hp : 1 ≤ period)
    (hxs : ∀ x ∈ xs, 0 ≤ x) : 0 ≤ wilderAvg xs period i := by
  unfold wilderAvg
  refine wilder_foldl_nonneg period hp _ _ ?_ ?_
  · have h1 : (0 : ℚ) ≤ (xs.take period).sum :=
      List.sum_nonneg (fun x hx => hxs x (List.mem_of_mem_take hx))
    positivity
  · intro x hx
    exact hxs x (List.mem_of_mem_drop (List.mem_of_mem_take hx))

/-- C6: every defined rsi_14 value produced by the indicator engine lies in
[0, 100], on any candle list; moreover when the smoothed average loss is
zero the value is exactly 100 (a defined fallback, not NaN or an error). -/
theorem rsi_bounds (candles : List OHLCVCandle) (i : ℕ) (r : ℚ)
    (h : (calculate_rsi (candles_to_dataframe candles) 14)[i]? = some (some r)) :
    0 ≤ r ∧ r ≤ 100 ∧
      (wilderAvg (losses (closes (candles_to_dataframe candles))) 14 i = 0 → r = 100) := by
  set df := candles_to_dataframe candles with hdf
  set cl := closes df with hcl
  have hi : i < df.length := by
    by_contra hge
    rw [List.getElem?_eq_none (by rw [length_calculate_rsi]; omega)] at h
    exact Option.noConfusion h
  rw [calculate_rsi_get? df 14 i hi] at h
  have h2 : rsiAt cl 14 i = some r := Option.some.inj h
  unfold rsiAt at h2
  by_cases hg : i < 14 ∨ cl.length ≤ i
  · rw [if_pos hg] at h2
    exact Option.noConfusion h2
  · rw [if_neg hg] at h2
    simp only at h2
    set g := wilderAvg (gains cl) 14 i with hgdef
    set l := wilderAvg (losses cl) 14 i with hldef
    have hgn : 0 ≤ g := wilderAvg_nonneg _ 14 i (by omega) (gains_nonneg cl)
    have hln : 0 ≤ l := wilderAvg_nonneg _ 14 i (by omega) (losses_nonneg cl)
    by_cases hl0 : l = 0
    · rw [if_pos hl0] at h2
      have : r = 100 := (Option.some.inj h2).symm
      exact ⟨by rw [this]; norm_num, by rw [this], fun _ => this⟩
    · rw [if_neg hl0] at h2
      have hr : r = 100 - 100 / (1 + g / l) := (Option.some.inj h2).symm
      have hlp : 0 < l := lt_of_le_of_ne hln (Ne.symm hl0)
      have hrs : 0 ≤ g / l := div_nonneg hgn hln
      have h1p : (0 : ℚ) < 1 + g / l := by linarith
      have hle : 100 / (1 + g / l) ≤ 100 := by
        rw [div_le_iff₀ h1p]
        nlinarith
      have hpos : 0 < 100 / (1 + g / l) := by positivity
      exact ⟨by rw [hr]; linarith, by rw [hr]; linarith, fun hc => absurd hc hl0⟩

/-- Witness for C6 at a concrete monotone 15-candle list, where the average
loss is zero and the RSI is exactly 100. -/
theorem rsi_bounds_witness :
    (calculate_rsi (candles_to_dataframe (wCandles 15)) 14)[14]? = some (some 100) ∧
      (0 ≤ (100 : ℚ) ∧ (100 : ℚ) ≤ 100 ∧
        (wilderAvg (losses (closes (candles_to_dataframe (wCandles 15)))) 14 14 = 0 →
          (100 : ℚ) = 100)) := by
  have h : (calculate_rsi (candles_to_dataframe (wCandles 15)) 14)[14]? = some (some 100) := by
    norm_num [calculate_rsi, rsiAt, wilderAvg, gains, losses, closes, candles_to_dataframe,
      sortByTimestamp, insertByTimestamp, wCandles, mkCandle, List.range_succ]
  exact ⟨h, rsi_bounds (wCandles 15) 14 100 h⟩

/-! ## C7: Bollinger Band ordering -/

theorem windowVar_nonneg (w : List ℚ) (p : ℕ) : 0 ≤ windowVar w p := by
  unfold windowVar
  have h1 : (0 : ℚ) ≤ (w.map (fun x => (x - windowMean w p) ^ 2)).sum := by
    refine List.sum_nonneg ?_
    intro x hx
    obtain ⟨y, _, hy⟩ := List.mem_map.mp hx
    rw [← hy]
    exact sq_nonneg _
  positivity

/-- C7: at every index where the 20-point rolling window of closes exists
and has nonzero variance, the three Bollinger Band series of the engine are
all defined there and satisfy the strict ordering upper > middle > lower. -/
theorem bollinger_ordering (candles : List OHLCVCandle) (i : ℕ) (m v : ℚ)
    (h : bbMeanVar (closes (candles_to_dataframe candles)) i = some (m, v)) (hv : v ≠ 0) :
    ∃ u mid lo : ℝ,
      (calculate_bollinger_bands (candles_to_dataframe candles)).1[i]? = some (some u) ∧
      (calculate_bollinger_bands (candles_to_dataframe candles)).2.1[i]? = some (some mid) ∧
      (calculate_bollinger_bands (candles_to_dataframe candles)).2.2[i]? = some (some lo) ∧
      lo < mid ∧ mid < u := by
  set df := candles_to_dataframe candles with hdf
  set cl := closes df with hcl
  have hi : i < df.length := by
    by_contra hge
    unfold bbMeanVar rollingWindow at h
    rw [if_pos (Or.inr (by rw [hcl, length_closes]; omega))] at h
    exact Option.noConfusion h
  have hvn : 0 ≤ v := by
    unfold bbMeanVar at h
    cases hw : rollingWindow cl 20 i with
    | none => rw [hw] at h; exact Option.noConfusion h
    | some w =>
      rw [hw] at h
      have := Option.some.inj h
      have hv2 : v = windowVar w 20 := congrArg Prod.snd this.symm
      rw [hv2]
      exact windowVar_nonneg w 20
  have hvp : (0 : ℝ) < (v : ℝ) := by
    have : 0 < v := lt_of_le_of_ne hvn (Ne.symm hv)
    exact_mod_cast this
  have hs : 0 < Real.sqrt (v : ℝ) := Real.sqrt_pos.mpr hvp
  have hup : bbUpperAt cl i = some ((m : ℝ) + 2 * Real.sqrt (v : ℝ)) := by
    unfold bbUpperAt; rw [h]; rfl
  have hmid : bbMiddleAt cl i = some ((m : ℝ)) := by
    unfold bbMiddleAt; rw [h]; rfl
  have hlo : bbLowerAt cl i = some ((m : ℝ) - 2 * Real.sqrt (v : ℝ)) := by
    unfold bbLowerAt; rw [h]; rfl
  refine ⟨(m : ℝ) + 2 * Real.sqrt (v : ℝ), (m : ℝ), (m : ℝ) - 2 * Real.sqrt (v : ℝ),
    ?_, ?_, ?_, by linarith, by linarith⟩
  · show ((List.range df.length).map (fun j => bbUpperAt cl j))[i]? = _
    rw [List.getElem?_map, List.getElem?_range hi]
    simp [hup]
  · show ((List.range df.length).map (fun j => bbMiddleAt cl j))[i]? = _
    rw [List.getElem?_map, List.getElem?_range hi]
    simp [hmid]
  · show ((List.range df.length).map (fun j => bbLowerAt cl j))[i]? = _
    rw [List.getElem?_map, List.getElem?_range hi]
    simp [hlo]

/-- Witness for C7 at a concrete 20-candle list with increasing closes,
whose first full window has mean 19/2 and variance 133/4. -/
theorem bollinger_ordering_witness :
    (bbMeanVar (closes (candles_to_dataframe (wCandles 20))) 19 = some (19/2, 133/4) ∧
        (133/4 : ℚ) ≠ 0) ∧
      ∃ u mid lo : ℝ,
        (calculate_bollinger_bands (candles_to_dataframe (wCandles 20))).1[19]? =
            some (some u) ∧
        (calculate_bollinger_bands (candles_to_dataframe (wCandles 20))).2.1[19]? =
            some (some mid) ∧
        (calculate_bollinger_bands (candles_to_dataframe (wCandles 20))).2.2[19]? =
            some (some lo) ∧
        lo < mid ∧ mid < u := by
  have h : bbMeanVar (closes (candles_to_dataframe (wCandles 20))) 19 =
      some (19/2, 133/4) := by
    norm_num [bbMeanVar, rollingWindow, windowMean, windowVar, closes, candles_to_dataframe,
      sortByTimestamp, insertByTimestamp, wCandles, mkCandle, List.range_succ]
  exact ⟨⟨h, by norm_num⟩, bollinger_ordering (wCandles 20) 19 (19/2) (133/4) h (by norm_num)⟩

/-! ## C2: crossover signal characterization -/

theorem diffAt_none_left (cl : List ℚ) (i : ℕ) (h : emaAt cl 20 i = none) :
    diffAt cl i = none := by
  unfold diffAt
  rw [h]

/-- The C2 property of the `ema_crossover_rsi` strategy over a candle
list: the produced value is the loop over rows 1, …, n-1 of the sorted
frame, and at each such row a buy is emitted exactly when
`diff[i-1] ≤ 0 ∧ diff[i] > 0 ∧ RSI[i] < 70` (all values defined), a sell
exactly when `diff[i-1] ≥ 0 ∧ diff[i] < 0 ∧ RSI[i] > 30`, never a hold,
with the code's confidence formulas `min 1 (1/2 + (70-RSI)/100)` for buys
and `min 1 (1/2 + (RSI-30)/100)` for sells. -/
def crossoverSpec (candles : List OHLCVCandle) (symbol : String) : Prop :=
  generate_signals candles symbol "ema_crossover_rsi" =
      .ok (((List.range (candles_to_dataframe candles).length).drop 1).filterMap
        (signalAt (candles_to_dataframe candles) symbol "ema_crossover_rsi")) ∧
    ∀ i, 1 ≤ i →
      ((∃ s, signalAt (candles_to_dataframe candles) symbol "ema_crossover_rsi" i = some s ∧
          s.action = .buy) ↔
        (∃ dp d r, diffAt (closes (candles_to_dataframe candles)) (i - 1) = some dp ∧
          diffAt (closes (candles_to_dataframe candles)) i = some d ∧
          rsiAt (closes (candles_to_dataframe candles)) 14 i = some r ∧
          dp ≤ 0 ∧ 0 < d ∧ r < 70)) ∧
      ((∃ s, signalAt (candles_to_dataframe candles) symbol "ema_crossover_rsi" i = some s ∧
          s.action = .sell) ↔
        (∃ dp d r, diffAt (closes (candles_to_dataframe candles)) (i - 1) = some dp ∧
          diffAt (closes (candles_to_dataframe candles)) i = some d ∧
          rsiAt (closes (candles_to_dataframe candles)) 14 i = some r ∧
          0 ≤ dp ∧ d < 0 ∧ 30 < r)) ∧
      (∀ s, signalAt (candles_to_dataframe candles) symbol "ema_crossover_rsi" i = some s →
        s.action ≠ .hold ∧
        (s.action = .buy → ∃ r, rsiAt (closes (candles_to_dataframe candles)) 14 i = some r ∧
          s.confidence = min 1 (1/2 + (70 - r) / 100)) ∧
        (s.action = .sell → ∃ r, rsiAt (closes (candles_to_dataframe candles)) 14 i = some r ∧
          s.confidence = min 1 (1/2 + (r - 30) / 100)))

/-- C2: for every candle list of length at least 50,
`generate_signals` with strategy id `ema_crossover_rsi` emits buy and sell
signals exactly at the crossover indices described by the spec, with the
spec's confidence formulas, and emits nothing else. -/
theorem crossover_signal_characterization (candles : List OHLCVCandle) (symbol : String)
    (h : 50 ≤ candles.length) : crossoverSpec candles symbol := by
  constructor
  · simp [generate_signals, generate_ema_crossover_rsi_signals, Nat.not_lt.mpr h]
  intro i hi1
  set df := candles_to_dataframe candles with hdf
  set cl := closes df with hclosdef
  have hcldf : cl.length = df.length := length_closes df
  rcases hrow : df[i]? with _ | row
  · have hilen : df.length ≤ i := by
      by_contra hlt
      rw [List.getElem?_eq_getElem (by omega)] at hrow
      exact Option.noConfusion hrow
    have h20 : emaAt cl 20 i = none := by
      rw [emaAt_eq_none_iff]; right; omega
    have hdiff : diffAt cl i = none := diffAt_none_left cl i h20
    have hsig : signalAt df symbol "ema_crossover_rsi" i = none := by
      unfold signalAt
      rw [hrow]
    refine ⟨?_, ?_, ?_⟩
    · constructor
      · rintro ⟨s, hs, -⟩; rw [hsig] at hs; exact Option.noConfusion hs
      · rintro ⟨dp, d, r, -, hd, -⟩; rw [hdiff] at hd; exact Option.noConfusion hd
    · constructor
      · rintro ⟨s, hs, -⟩; rw [hsig] at hs; exact Option.noConfusion hs
      · rintro ⟨dp, d, r, -, hd, -⟩; rw [hdiff] at hd; exact Option.noConfusion hd
    · intro s hs; rw [hsig] at hs; exact Option.noConfusion hs
  rcases h20 : emaAt cl 20 i with _ | e20
  · have hdiff : diffAt cl i = none := diffAt_none_left cl i h20
    have hsig : signalAt df symbol "ema_crossover_rsi" i = none := by
      unfold signalAt
      rw [hrow, h20]
    refine ⟨?_, ?_, ?_⟩
    · constructor
      · rintro ⟨s, hs, -⟩; rw [hsig] at hs; exact Option.noConfusion hs
      · rintro ⟨dp, d, r, -, hd, -⟩; rw [hdiff] at hd; exact Option.noConfusion hd
    · constructor
      · rintro ⟨s, hs, -⟩; rw [hsig] at hs; exact Option.noConfusion hs
      · rintro ⟨dp, d, r, -, hd, -⟩; rw [hdiff] at hd; exact Option.noConfusion hd
    · intro s hs; rw [hsig] at hs; exact Option.noConfusion hs
  rcases h50 : emaAt cl 50 i with _ | e50
  · have hdiff : diffAt cl i = none := by
      unfold diffAt
      rw [h20, h50]
    have hsig : signalAt df symbol "ema_crossover_rsi" i = none := by
      unfold signalAt
      rw [hrow, h20, h50]
    refine ⟨?_, ?_, ?_⟩
    · constructor
      · rintro ⟨s, hs, -⟩; rw [hsig] at hs; exact Option.noConfusion hs
      · rintro ⟨dp, d, r, -, hd, -⟩; rw [hdiff] at hd; exact Option.noConfusion hd
    · constructor
      · rintro ⟨s, hs, -⟩; rw [hsig] at hs; exact Option.noConfusion hs
      · rintro ⟨dp, d, r, -, hd, -⟩; rw [hdiff] at hd; exact Option.noConfusion hd
    · intro s hs; rw [hsig] at hs; exact Option.noConfusion hs
  rcases hr : rsiAt cl 14 i with _ | r
  · have hsig : signalAt df symbol "ema_crossover_rsi" i = none := by
      unfold signalAt
      rw [hrow, h20, h50, hr]
    refine ⟨?_, ?_, ?_⟩
    · constructor
      · rintro ⟨s, hs, -⟩; rw [hsig] at hs; exact Option.noConfusion hs
      · rintro ⟨dp, d, r2, -, -, hr2, -⟩; exact Option.noConfusion hr2
    · constructor
      · rintro ⟨s, hs, -⟩; rw [hsig] at hs; exact Option.noConfusion hs
      · rintro ⟨dp, d, r2, -, -, hr2, -⟩; exact Option.noConfusion hr2
    · intro s hs; rw [hsig] at hs; exact Option.noConfusion hs
  have hdiff : diffAt cl i = some (e20 - e50) := by
    unfold diffAt
    rw [h20, h50]
  have hsig0 : signalAt df symbol "ema_crossover_rsi" i =
      (if npLe (diffAt cl (i - 1)) 0 && decide (0 < e20 - e50) then
        if r < 70 then
          some ⟨symbol, row.timestamp, .buy, min 1 (1/2 + (70 - r) / 100), row.close,
            "ema_crossover_rsi", [("ema_20", e20), ("ema_50", e50), ("rsi_14", r)]⟩
        else none
      else if npGe (diffAt cl (i - 1)) 0 && decide (e20 - e50 < 0) then
        if 30 < r then
          some ⟨symbol, row.timestamp, .sell, min 1 (1/2 + (r - 30) / 100), row.close,
            "ema_crossover_rsi", [("ema_20", e20), ("ema_50", e50), ("rsi_14", r)]⟩
        else none
      else none) := by
    unfold signalAt
    rw [hrow, h20, h50, hr]
  by_cases hc1 : (npLe (diffAt cl (i - 1)) 0 && decide (0 < e20 - e50)) = true
  · have hdp : ∃ dp, diffAt cl (i - 1) = some dp ∧ dp ≤ 0 := by
      have h1 : npLe (diffAt cl (i - 1)) 0 = true := (Bool.and_eq_true_iff.mp hc1).1
      cases hdpv : diffAt cl (i - 1) with
      | none => rw [hdpv] at h1; exact Bool.noConfusion h1
      | some dp =>
        rw [hdpv] at h1
        exact ⟨dp, rfl, of_decide_eq_true h1⟩
    have hdpos : 0 < e20 - e50 := of_decide_eq_true (Bool.and_eq_true_iff.mp hc1).2
    rw [if_pos hc1] at hsig0
    by_cases hr70 : r < 70
    · rw [if_pos hr70] at hsig0
      obtain ⟨dp, hdpv, hdple⟩ := hdp
      refine ⟨?_, ?_, ?_⟩
      · constructor
        · intro _; exact ⟨dp, e20 - e50, r, hdpv, hdiff, rfl, hdple, hdpos, hr70⟩
        · intro _; exact ⟨_, hsig0, rfl⟩
      · constructor
        · rintro ⟨s, hs, hact⟩
          rw [hsig0] at hs
          rw [← Option.some.inj hs] at hact
          exact absurd hact (by simp)
        · rintro ⟨dp2, d2, r2, -, hd2, -, -, hdneg, -⟩
          rw [hdiff] at hd2
          rw [← Option.some.inj hd2] at hdneg
          linarith
      · intro s hs
        rw [hsig0] at hs
        rw [← Option.some.inj hs]
        exact ⟨by simp, fun _ => ⟨r, rfl, rfl⟩, fun hact => absurd hact (by simp)⟩
    · rw [if_neg hr70] at hsig0
      refine ⟨?_, ?_, ?_⟩
      · constructor
        · rintro ⟨s, hs, -⟩; rw [hsig0] at hs; exact Option.noConfusion hs
        · rintro ⟨dp2, d2, r2, -, -, hr2, -, -, hr70b⟩
          rw [← Option.some.inj hr2] at hr70b
          exact (hr70 hr70b).elim
      · constructor
        · rintro ⟨s, hs, -⟩; rw [hsig0] at hs; exact Option.noConfusion hs
        · rintro ⟨dp2, d2, r2, -, hd2, -, -, hdneg, -⟩
          rw [hdiff] at hd2
          rw [← Option.some.inj hd2] at hdneg
          linarith
      · intro s hs; rw [hsig0] at hs; exact Option.noConfusion hs
  · rw [if_neg hc1] at hsig0
    by_cases hc2 : (npGe (diffAt cl (i - 1)) 0 && decide (e20 - e50 < 0)) = true
    · have hdp : ∃ dp, diffAt cl (i - 1) = some dp ∧ 0 ≤ dp := by
        have h1 : npGe (diffAt cl (i - 1)) 0 = true := (Bool.and_eq_true_iff.mp hc2).1
        cases hdpv : diffAt cl (i - 1) with
        | none => rw [hdpv] at h1; exact Bool.noConfusion h1
        | some dp =>
          rw [hdpv] at h1
          exact ⟨dp, rfl, of_decide_eq_true h1⟩
      have hdneg : e20 - e50 < 0 := of_decide_eq_true (Bool.and_eq_true_iff.mp hc2).2
      rw [if_pos hc2] at hsig0
      by_cases hr30 : 30 < r
      · rw [if_pos hr30] at hsig0
        obtain ⟨dp, hdpv, hdpge⟩ := hdp
        refine ⟨?_, ?_, ?_⟩
        · constructor
          · rintro ⟨s, hs, hact⟩
            rw [hsig0] at hs
            rw [← Option.some.inj hs] at hact
            exact absurd hact (by simp)
          · rintro ⟨dp2, d2, r2, -, hd2, -, -, hdpos2, -⟩
            rw [hdiff] at hd2
            rw [← Option.some.inj hd2] at hdpos2
            linarith
        · constructor
          · intro _; exact ⟨dp, e20 - e50, r, hdpv, hdiff, rfl, hdpge, hdneg, hr30⟩
          · intro _; exact ⟨_, hsig0, rfl⟩
        · intro s hs
          rw [hsig0] at hs
          rw [← Option.some.inj hs]
          exact ⟨by simp, fun hact => absurd hact (by simp), fun _ => ⟨r, rfl, rfl⟩⟩
      · rw [if_neg hr30] at hsig0
        refine ⟨?_, ?_, ?_⟩
        · constructor
          · rintro ⟨s, hs, -⟩; rw [hsig0] at hs; exact Option.noConfusion hs
          · rintro ⟨dp2, d2, r2, -, hd2, -, -, hdpos2, -⟩
            rw [hdiff] at hd2
            rw [← Option.some.inj hd2] at hdpos2
            linarith
        · constructor
          · rintro ⟨s, hs, -⟩; rw [hsig0] at hs; exact Option.noConfusion hs
          · rintro ⟨dp2, d2, r2, -, -, hr2, -, -, hr30b⟩
            rw [← Option.some.inj hr2] at hr30b
            exact (hr30 hr30b).elim
        · intro s hs; rw [hsig0] at hs; exact Option.noConfusion hs
    · rw [if_neg hc2] at hsig0
      refine ⟨?_, ?_, ?_⟩
      · constructor
        · rintro ⟨s, hs, -⟩; rw [hsig0] at hs; exact Option.noConfusion hs
        · rintro ⟨dp2, d2, r2, hdp2, hd2, -, hdple, hdpos2, -⟩
          rw [hdiff] at hd2
          have hd2e : d2 = e20 - e50 := (Option.some.inj hd2).symm
          have hcontra : (npLe (diffAt cl (i - 1)) 0 && decide (0 < e20 - e50)) = true := by
            rw [Bool.and_eq_true_iff]
            constructor
            · rw [hdp2]; exact decide_eq_true hdple
            · exact decide_eq_true (by rw [← hd2e]; exact hdpos2)
          exact (hc1 hcontra).elim
      · constructor
        · rintro ⟨s, hs, -⟩; rw [hsig0] at hs; exact Option.noConfusion hs
        · rintro ⟨dp2, d2, r2, hdp2, hd2, -, hdpge, hdneg2, -⟩
          rw [hdiff] at hd2
          have hd2e : d2 = e20 - e50 := (Option.some.inj hd2).symm
          have hcontra : (npGe (diffAt cl (i - 1)) 0 && decide (e20 - e50 < 0)) = true := by
            rw [Bool.and_eq_true_iff]
            constructor
            · rw [hdp2]; exact decide_eq_true hdpge
            · exact decide_eq_true (by rw [← hd2e]; exact hdneg2)
          exact (hc2 hcontra).elim
      · intro s hs; rw [hsig0] at hs; exact Option.noConfusion hs

/-- Witness for C2 at a concrete 50-candle list. -/
theorem crossover_signal_characterization_witness :
    50 ≤ (wCandles 50).length ∧ crossoverSpec (wCandles 50) "BTC/USDT" :=
  ⟨by decide, crossover_signal_characterization (wCandles 50) "BTC/USDT" (by decide)⟩

/-! ## C9: a strict uptrend produces no sell signals -/

theorem sortByTimestamp_eq_self :
    ∀ l : List OHLCVCandle,
      List.Chain' (fun a b => a.timestamp < b.timestamp) l → sortByTimestamp l = l := by
  intro l h
  induction l with
  | nil => rfl
  | cons c cs ih =>
    have htail := h.tail
    show insertByTimestamp c (sortByTimestamp cs) = c :: cs
    rw [ih htail]
    cases cs with
    | nil => rfl
    | cons d ds =>
      have hcd : c.timestamp < d.timestamp := (List.chain'_cons.mp h).1
      show (if c.timestamp < d.timestamp then c :: d :: ds else
        d :: insertByTimestamp c ds) = c :: d :: ds
      rw [if_pos hcd]

theorem getD_lt_of_chain (cl : List ℚ) (h : List.Chain' (fun a b => a < b) cl) :
    ∀ j, j + 1 < cl.length → cl.getD j 0 < cl.getD (j + 1) 0 := by
  intro j hj
  have h1 := List.chain'_iff_get.mp h j (by omega)
  have e1 : cl.getD j 0 = cl.get ⟨j, by omega⟩ := by
    rw [List.getD_eq_getElem?_getD, List.getElem?_eq_getElem (by omega : j < cl.length)]
    rfl
  have e2 : cl.getD (j + 1) 0 = cl.get ⟨j + 1, by omega⟩ := by
    rw [List.getD_eq_getElem?_getD, List.getElem?_eq_getElem (by omega : j + 1 < cl.length)]
    rfl
  rw [e1, e2]
  exact h1

theorem getD_mono_of_chain (cl : List ℚ)
    (hm : ∀ j, j + 1 < cl.length → cl.getD j 0 < cl.getD (j + 1) 0) :
    ∀ k, k < cl.length → ∀ j, j ≤ k → cl.getD j 0 ≤ cl.getD k 0 := by
  intro k
  induction k with
  | zero =>
    intro _ j hj
    have : j = 0 := by omega
    rw [this]
  | succ k ih =>
    intro hk j hj
    by_cases hj2 : j = k + 1
    · rw [hj2]
    · have h1 : cl.getD j 0 ≤ cl.getD k 0 := ih (by omega) j (by omega)
      have h2 : cl.getD k 0 < cl.getD (k + 1) 0 := hm k hk
      linarith

theorem sum_take_succ_eq (cl : List ℚ) (i : ℕ) (hi : i < cl.length) :
    (cl.take (i + 1)).sum = (cl.take i).sum + cl.getD i 0 := by
  rw [List.take_succ, List.getElem?_eq_getElem hi, List.sum_append]
  simp [List.getD_eq_getElem?_getD, List.getElem?_eq_getElem hi]

theorem sum_take_le (cl : List ℚ)
    (hm : ∀ j, j + 1 < cl.length → cl.getD j 0 < cl.getD (j + 1) 0) :
    ∀ p, 1 ≤ p → p ≤ cl.length → (cl.take p).sum ≤ (p : ℚ) * cl.getD (p - 1) 0 := by
  intro p hp1
  induction p, hp1 using Nat.le_induction with
  | base =>
    intro hp
    rw [sum_take_succ_eq cl 0 (by omega)]
    simp
  | succ p hp ih =>
    intro hlen
    have h1 : (cl.take (p + 1)).sum = (cl.take p).sum + cl.getD p 0 :=
      sum_take_succ_eq cl p (by omega)
    have h2 : (cl.take p).sum ≤ (p : ℚ) * cl.getD (p - 1) 0 := ih (by omega)
    have h3 : cl.getD (p - 1) 0 ≤ cl.getD p 0 :=
      getD_mono_of_chain cl hm p (by omega) (p - 1) (by omega)
    have h4 : (0 : ℚ) ≤ (p : ℚ) := by positivity
    have h5 : ((p + 1 : ℕ) : ℚ) = (p : ℚ) + 1 := by push_cast; ring
    rw [h1, h5]
    have h6 : (p : ℚ) * cl.getD (p - 1) 0 ≤ (p : ℚ) * cl.getD p 0 :=
      mul_le_mul_of_nonneg_left h3 h4
    have h7 : p + 1 - 1 = p := by omega
    rw [h7]
    linarith

theorem emaAlpha_pos (p : ℕ) : 0 < emaAlpha p := by
  unfold emaAlpha
  positivity

theorem emaAlpha_le_one (p : ℕ) (hp : 1 ≤ p) : emaAlpha p ≤ 1 := by
  unfold emaAlpha
  rw [div_le_one (by positivity)]
  have : (1 : ℚ) ≤ (p : ℚ) := by exact_mod_cast hp
  linarith

theorem emaVal_le_close (cl : List ℚ)
    (hm : ∀ j, j + 1 < cl.length → cl.getD j 0 < cl.getD (j + 1) 0) (p : ℕ) (hp : 1 ≤ p) :
    ∀ i, p - 1 ≤ i → i < cl.length → emaVal cl p i ≤ cl.getD i 0 := by
  intro i hpi
  induction i, hpi using Nat.le_induction with
  | base =>
    intro hlen
    rw [emaVal_seed cl p hp]
    unfold emaSeed
    have hple : p ≤ cl.length := by omega
    have h1 : (cl.take p).sum ≤ (p : ℚ) * cl.getD (p - 1) 0 := sum_take_le cl hm p hp hple
    have hp0 : (0 : ℚ) < (p : ℚ) := by
      have : (1 : ℚ) ≤ (p : ℚ) := by exact_mod_cast hp
      linarith
    rw [div_le_iff₀ hp0]
    linarith [h1]
  | succ i hi ih =>
    intro hlen
    have hstep : emaVal cl p (i + 1) =
        emaStep (emaAlpha p) (emaVal cl p (i + 1 - 1)) (cl.getD (i + 1) 0) :=
      emaVal_succ cl p (i + 1) hp (by omega) hlen
    have h71 : i + 1 - 1 = i := by omega
    rw [h71] at hstep
    have hprev : emaVal cl p i ≤ cl.getD i 0 := ih (by omega)
    have hcc : cl.getD i 0 ≤ cl.getD (i + 1) 0 := le_of_lt (hm i hlen)
    have ha0 : 0 < emaAlpha p := emaAlpha_pos p
    have ha1 : emaAlpha p ≤ 1 := emaAlpha_le_one p hp
    rw [hstep]
    unfold emaStep
    nlinarith [mul_nonneg (sub_nonneg.mpr ha1)
      (sub_nonneg.mpr (hprev.trans hcc))]

theorem e20_sum_bound (cl : List ℚ)
    (hm : ∀ j, j + 1 < cl.length → cl.getD j 0 < cl.getD (j + 1) 0) :
    ∀ j, 19 ≤ j → j < cl.length → (cl.take (j + 1)).sum ≤ ((j : ℚ) + 1) * emaVal cl 20 j := by
  intro j hj
  induction j, hj using Nat.le_induction with
  | base =>
    intro hlen
    have h1 : emaVal cl 20 19 = emaSeed cl 20 := emaVal_seed cl 20 (by omega)
    rw [h1]
    unfold emaSeed
    have : ((19 : ℕ) : ℚ) + 1 = 20 := by norm_num
    rw [this]
    rw [show ((20 : ℕ) : ℚ) = (20 : ℚ) from by norm_num]
    rw [mul_div_cancel₀ _ (by norm_num : (20 : ℚ) ≠ 0)]
  | succ j hj19 ih =>
    intro hlen
    have hstep : emaVal cl 20 (j + 1) =
        emaStep (emaAlpha 20) (emaVal cl 20 (j + 1 - 1)) (cl.getD (j + 1) 0) :=
      emaVal_succ cl 20 (j + 1) (by omega) (by omega) hlen
    have h71 : j + 1 - 1 = j := by omega
    rw [h71] at hstep
    have hsum : (cl.take (j + 1 + 1)).sum = (cl.take (j + 1)).sum + cl.getD (j + 1) 0 :=
      sum_take_succ_eq cl (j + 1) hlen
    have hIH : (cl.take (j + 1)).sum ≤ ((j : ℚ) + 1) * emaVal cl 20 j := ih (by omega)
    have hEc : emaVal cl 20 j ≤ cl.getD j 0 :=
      emaVal_le_close cl hm 20 (by omega) j (by omega) (by omega)
    have hcc : cl.getD j 0 ≤ cl.getD (j + 1) 0 := le_of_lt (hm j hlen)
    have hq : (19 : ℚ) ≤ (j : ℚ) := by exact_mod_cast hj19
    have halpha : emaAlpha 20 = 2 / 21 := by
      unfold emaAlpha; norm_num
    have hcast : ((j + 1 : ℕ) : ℚ) = (j : ℚ) + 1 := by push_cast; ring
    rw [hsum, hstep, hcast]
    unfold emaStep
    rw [halpha]
    have hprod : 0 ≤ (2 * (j : ℚ) - 17) * (cl.getD (j + 1) 0 - emaVal cl 20 j) := by
      have h1 : (0 : ℚ) ≤ 2 * (j : ℚ) - 17 := by linarith
      have h2 : (0 : ℚ) ≤ cl.getD (j + 1) 0 - emaVal cl 20 j := by linarith
      exact mul_nonneg h1 h2
    nlinarith [hprod, hIH]

theorem e50_le_e20 (cl : List ℚ)
    (hm : ∀ j, j + 1 < cl.length → cl.getD j 0 < cl.getD (j + 1) 0) :
    ∀ i, 49 ≤ i → i < cl.length → emaVal cl 50 i ≤ emaVal cl 20 i := by
  intro i hi
  induction i, hi using Nat.le_induction with
  | base =>
    intro hlen
    have h1 : emaVal cl 50 49 = emaSeed cl 50 := emaVal_seed cl 50 (by omega)
    rw [h1]
    unfold emaSeed
    have h2 : (cl.take 50).sum ≤ ((49 : ℚ) + 1) * emaVal cl 20 49 :=
      e20_sum_bound cl hm 49 (by omega) hlen
    have h3 : ((49 : ℚ) + 1) = 50 := by norm_num
    rw [h3] at h2
    rw [div_le_iff₀ (by norm_num : (0 : ℚ) < (50 : ℕ))]
    have : ((50 : ℕ) : ℚ) = 50 := by norm_num
    rw [this]
    linarith
  | succ i hi49 ih =>
    intro hlen
    have hs50 : emaVal cl 50 (i + 1) =
        emaStep (emaAlpha 50) (emaVal cl 50 (i + 1 - 1)) (cl.getD (i + 1) 0) :=
      emaVal_succ cl 50 (i + 1) (by omega) (by omega) hlen
    have hs20 : emaVal cl 20 (i + 1) =
        emaStep (emaAlpha 20) (emaVal cl 20 (i + 1 - 1)) (cl.getD (i + 1) 0) :=
      emaVal_succ cl 20 (i + 1) (by omega) (by omega) hlen
    have h71 : i + 1 - 1 = i := by omega
    rw [h71] at hs50 hs20
    have hIH : emaVal cl 50 i ≤ emaVal cl 20 i := ih (by omega)
    have hEc : emaVal cl 50 i ≤ cl.getD i 0 :=
      emaVal_le_close cl hm 50 (by omega) i (by omega) (by omega)
    have hcc : cl.getD i 0 ≤ cl.getD (i + 1) 0 := le_of_lt (hm i hlen)
    have ha50 : emaAlpha 50 = 2 / 51 := by unfold emaAlpha; norm_num
    have ha20 : emaAlpha 20 = 2 / 21 := by unfold emaAlpha; norm_num
    rw [hs50, hs20, ha50, ha20]
    unfold emaStep
    linarith

theorem emaAt_some_inv (cl : List ℚ) (p i : ℕ) (v : ℚ) (h : emaAt cl p i = some v) :
    p ≤ i + 1 ∧ i < cl.length ∧ v = emaVal cl p i := by
  unfold emaAt at h
  by_cases hg : i + 1 < p ∨ cl.length ≤ i
  · rw [if_pos hg] at h
    exact Option.noConfusion h
  · rw [if_neg hg] at h
    push_neg at hg
    exact ⟨by omega, by omega, (Option.some.inj h).symm⟩

theorem sell_signal_inversion (df : List OHLCVCandle) (symbol sid : String) (i : ℕ)
    (s : Signal) (hs : signalAt df symbol sid i = some s) (hact : s.action = .sell) :
    ∃ e20 e50, emaAt (closes df) 20 i = some e20 ∧ emaAt (closes df) 50 i = some e50 ∧
      e20 - e50 < 0 := by
  unfold signalAt at hs
  rcases hrow : df[i]? with _ | row
  · rw [hrow] at hs; exact Option.noConfusion hs
  rw [hrow] at hs
  rcases h20 : emaAt (closes df) 20 i with _ | e20
  · rw [h20] at hs; exact Option.noConfusion hs
  rw [h20] at hs
  rcases h50 : emaAt (closes df) 50 i with _ | e50
  · rw [h50] at hs; exact Option.noConfusion hs
  rw [h50] at hs
  rcases hr : rsiAt (closes df) 14 i with _ | r
  · rw [hr] at hs; exact Option.noConfusion hs
  rw [hr] at hs
  simp only at hs
  by_cases hc1 : (npLe (diffAt (closes df) (i - 1)) 0 && decide (0 < e20 - e50)) = true
  · rw [if_pos hc1] at hs
    by_cases hr70 : r < 70
    · rw [if_pos hr70] at hs
      have := Option.some.inj hs
      rw [← this] at hact
      exact absurd hact (by simp)
    · rw [if_neg hr70] at hs
      exact Option.noConfusion hs
  · rw [if_neg hc1] at hs
    by_cases hc2 : (npGe (diffAt (closes df) (i - 1)) 0 && decide (e20 - e50 < 0)) = true
    · rw [if_pos hc2] at hs
      by_cases hr30 : 30 < r
      · exact ⟨e20, e50, rfl, rfl, of_decide_eq_true (Bool.and_eq_true_iff.mp hc2).2⟩
      · rw [if_neg hr30] at hs
        exact Option.noConfusion hs
    · rw [if_neg hc2] at hs
      exact Option.noConfusion hs

/-- C9: for every 100-candle list with strictly increasing timestamps and
strictly increasing closes, `generate_signals` with strategy id
`ema_crossover_rsi` succeeds and its output contains no sell signal: in a
monotone uptrend EMA(20) never drops below EMA(50), so no bearish
crossover occurs. -/
theorem uptrend_no_sell_signals (candles : List OHLCVCandle) (symbol : String)
    (hlen : candles.length = 100)
    (hts : List.Chain' (fun a b => a.timestamp < b.timestamp) candles)
    (hcl : List.Chain' (fun a b => a < b) (candles.map (fun c => c.close))) :
    ∃ sigs, generate_signals candles symbol "ema_crossover_rsi" = .ok sigs ∧
      ∀ s ∈ sigs, s.action ≠ SignalAction.sell := by
  have hdf : candles_to_dataframe candles = candles := sortByTimestamp_eq_self candles hts
  have hclcl : closes candles = candles.map (fun c => c.close) := rfl
  have hm : ∀ j, j + 1 < (closes candles).length →
      (closes candles).getD j 0 < (closes candles).getD (j + 1) 0 := by
    rw [hclcl]
    exact getD_lt_of_chain _ hcl
  refine ⟨generate_ema_crossover_rsi_signals candles symbol "ema_crossover_rsi", by
    simp [generate_signals], ?_⟩
  intro s hmem hact
  unfold generate_ema_crossover_rsi_signals at hmem
  rw [if_neg (by omega)] at hmem
  rw [hdf] at hmem
  obtain ⟨i, -, hsig⟩ := List.mem_filterMap.mp hmem
  obtain ⟨e20, e50, h20, h50, hneg⟩ :=
    sell_signal_inversion candles symbol "ema_crossover_rsi" i s hsig hact
  obtain ⟨hb20, hl20, he20⟩ := emaAt_some_inv _ 20 i e20 h20
  obtain ⟨hb50, hl50, he50⟩ := emaAt_some_inv _ 50 i e50 h50
  have hle : emaVal (closes candles) 50 i ≤ emaVal (closes candles) 20 i :=
    e50_le_e20 (closes candles) hm i (by omega) hl50
  rw [he20, he50] at hneg
  linarith

/-- Witness for C9 at a concrete 100-candle uptrend. -/
theorem uptrend_no_sell_signals_witness :
    ((wCandles 100).length = 100 ∧
        List.Chain' (fun a b => a.timestamp < b.timestamp) (wCandles 100) ∧
        List.Chain' (fun a b => a < b) ((wCandles 100).map (fun c => c.close))) ∧
      ∃ sigs, generate_signals (wCandles 100) "BTC/USDT" "ema_crossover_rsi" = .ok sigs ∧
        ∀ s ∈ sigs, s.action ≠ SignalAction.sell := by
  have h1 : (wCandles 100).length = 100 := by
    rw [wCandles, List.length_map, List.length_range]
  have hr : List.Chain' (fun a b => a < b) (List.range 100) := by
    rw [show (100 : ℕ) = Nat.succ 99 from rfl, List.chain'_range_succ]
    exact fun m _ => Nat.lt_succ_self m
  have h2 : List.Chain' (fun a b => a.timestamp < b.timestamp) (wCandles 100) := by
    rw [wCandles]
    refine List.chain'_map_of_chain' _ ?_ hr
    intro a b hab
    show (Int.ofNat a) < (Int.ofNat b)
    exact Int.ofNat_lt.mpr hab
  have h3 : List.Chain' (fun a b => a < b) ((wCandles 100).map (fun c => c.close)) := by
    rw [wCandles, List.map_map]
    refine List.chain'_map_of_chain' _ ?_ hr
    intro a b hab
    show ((a : ℚ)) < ((b : ℚ))
    exact_mod_cast hab
  exact ⟨⟨h1, h2, h3⟩, uptrend_no_sell_signals (wCandles 100) "BTC/USDT" h1 h2 h3⟩

/-- Witness for C10 at a concrete one-candle list. -/
theorem macd_ignored_witness :
    ([mkCandle 0 0] : List OHLCVCandle) ≠ [] ∧
      ("macd" ∈ IndicatorName ∧
        (calculate_indicators [mkCandle 0 0] ["macd"]).length = [mkCandle 0 0].length ∧
        ∀ r ∈ calculate_indicators [mkCandle 0 0] ["macd"], r.values = []) :=
  ⟨by decide, macd_ignored [mkCandle 0 0] (by decide)⟩
